import Mathlib

/-!
Verification development for `dice_ml/explainer_interfaces/dice_genetic_conformance.py`
(class `DiceGeneticConformance`).

The Python source is embedded shallowly: feature vectors are `List ℚ`, numpy
array operations become index-wise list operations, the external collaborators
(trained model, data interface, categorical encoder, declarative conformance
checker) are parameters of the embedded functions, and the stochastic draws
(`random.random()`, `np.random.uniform`, `np.random.choice`) are explicit
streams of rational draws and choice indexes.  Fallible paths (`SystemError`,
a `while` loop that may not terminate) are `Option` valued, with `none`
standing for the raised error or for the loop still running after the given
amount of fuel.
-/

namespace DiceGC

/-! ### Declarative model constraints (`get_constraint_activities`) -/

/-- One entry of `d4py.model.checkers`: the template flags
`supports_cardinality` and `is_binary`, and the `attributes` string
(for a binary constraint: the two activity names separated by a comma). -/
structure DeclChecker where
  supportsCardinality : Bool
  isBinary : Bool
  attributes : String
deriving DecidableEq

/-- `constraint['attributes'].replace(' ', '').split(',')` unpacked into
`str1, str2` for a binary constraint. -/
def binaryAttrs (c : DeclChecker) : String × String :=
  let parts := (c.attributes.replace (" ") ("")).splitOn (",")
  (parts.getD 0 (""), parts.getD 1 (""))

/-- The accumulation loop of `get_constraint_activities` (lines 970-980):
cardinality-supporting constraints contribute their attribute to the
activation set, binary constraints contribute `str1` to activations and
`str2` to targets. -/
def rawSets (checkers : List DeclChecker) : Finset String × Finset String :=
  checkers.foldl
    (fun acc c =>
      if c.supportsCardinality then (insert c.attributes acc.1, acc.2)
      else if c.isBinary then
        (insert (binaryAttrs c).1 acc.1, insert (binaryAttrs c).2 acc.2)
      else acc)
    (∅, ∅)

/-- `get_constraint_activities` (lines 970-984): after the accumulation loop,
`targets = set([x for x in targets if x not in activations])` and
`activities = activations ∪ targets`.  Returns
`(activities, activations, targets)` as in the source. -/
def getConstraintActivities (checkers : List DeclChecker) :
    Finset String × Finset String × Finset String :=
  let activations := (rawSets checkers).1
  let targets := (rawSets checkers).2.filter (fun x => x ∉ activations)
  let activities := activations ∪ targets
  (activities, activations, targets)

/-! ### Custom classification prediction (`_predict_fn_custom`) -/

/-- `np.max(output, 1)` on one row of scores. -/
def rowMax (r : List ℚ) : ℚ := r.foldl max (r.headD 0)

/-- `np.argmax(output, 1)` on one row: the first index attaining the maximum. -/
def argmaxRow (r : List ℚ) : ℕ := r.indexOf (rowMax r)

/-- The binary expansion `np.hstack((1-output, output))` performed when the
classifier returns a single score column (lines 403-405). -/
def expandScores (out : List (List ℚ)) : List (List ℚ) :=
  if (out.headD []).length = 1 then
    out.map (fun r => [1 - r.getD 0 0, r.getD 0 0])
  else out

/-- `_predict_fn_custom` (lines 392-415): per row, `np.argmax` overridden to
the desired class whenever the desired class's score equals the row maximum. -/
def predictFnCustom (out : List (List ℚ)) (desiredClass : ℕ) : List ℕ :=
  (expandScores out).map
    (fun r => if r.getD desiredClass 0 = rowMax r then desiredClass else argmaxRow r)

/-! ### Feature schema and randomness for the initializer and mating engine -/

/-- Per-feature data of the search: feature count, the continuous/categorical
split, which features may vary, `feature_range` (interval endpoints for
continuous features, the level list for categorical ones), the decimal
precisions, and the encoded query instance. -/
structure FeatureSchema where
  numFeatures : ℕ
  isCont : ℕ → Bool
  varies : ℕ → Bool
  lo : ℕ → ℚ
  hi : ℕ → ℚ
  levels : ℕ → List ℚ
  precisions : ℕ → ℕ
  query : ℕ → ℚ

/-- Stochastic draws consumed per feature position: the `random.random()`
draw, the unit draw behind `np.random.uniform`, and the index drawn by
`np.random.choice`. -/
structure RandFeature where
  prob : ℕ → ℚ
  unit : ℕ → ℚ
  choice : ℕ → ℕ

/-- `np.random.uniform(a, b)` as a function of a unit draw `r ∈ [0, 1]`. -/
def uniformAB (a b r : ℚ) : ℚ := a + r * (b - a)

/-- `np.random.choice(levels)` as a function of a drawn index. -/
def chooseFrom (l : List ℚ) (k : ℕ) : ℚ := l.getD (k % l.length) 0

/-- `mate` (lines 697-725): plain uniform crossover.  Per feature a fresh
probability is drawn; below `0.40` the gene comes from parent 1, below `0.80`
from parent 2, otherwise it mutates: a variable continuous feature evaluates
`np.random.uniform(self.feature_range[feat_name][0], self.feature_range[feat_name][0])`
(both arguments are the lower endpoint, as in the source), a variable
categorical feature draws from its levels, a fixed feature copies the query. -/
def mate (S : FeatureSchema) (env : RandFeature) (k1 k2 : List ℚ) : List ℚ :=
  (List.range S.numFeatures).map
    (fun j =>
      if env.prob j < 2/5 then k1.getD j 0
      else if env.prob j < 4/5 then k2.getD j 0
      else if S.varies j then
        if S.isCont j then uniformAB (S.lo j) (S.lo j) (env.unit j)
        else chooseFrom (S.levels j) (env.choice j)
      else S.query j)

/-- Schema used to exercise `mate` on a single variable continuous feature
with `feature_range = [0, 10]` and query value `5`. -/
def mateBugSchema : FeatureSchema :=
  ⟨1, fun _ => true, fun _ => true, fun _ => 0, fun _ => 10, fun _ => [], fun _ => 0, fun _ => 5⟩

/-- Random environment forcing the mutation branch (`prob = 9/10`) with an
arbitrary unit draw `r`. -/
def mateBugEnv (r : ℚ) : RandFeature :=
  ⟨fun _ => 9/10, fun _ => r, fun _ => 0⟩

/-! ### Breeding step of the generational loop (lines 783-813) -/

/-- The breeding step at the end of one loop iteration: `new_generation_1` is
the `total_CFs` best rows of the fitness-sorted population,
`rest_members = population_size - total_CFs` children are bred when that count
is positive (`child n` abstracts the `mate`/`mate_2` call for offspring slot
`n`), and the two blocks are concatenated; otherwise `new_generation_2` stays
`None` and `SystemError` is raised, rendered as `none`. -/
def breedStep (populationSize totalCFs : ℕ) (sortedPop : List (List ℚ))
    (child : ℕ → List ℚ) : Option (List (List ℚ)) :=
  let newGen1 := sortedPop.take totalCFs
  let restMembers : ℤ := (populationSize : ℤ) - (totalCFs : ℤ)
  if 0 < restMembers then some (newGen1 ++ (List.range restMembers.toNat).map child)
  else none

/-! ### Conformance scorer (`compute_conformance_new`, lines 1034-1116) -/

/-- Declare4Py `TraceState` of one constraint checker on one case. -/
inductive TState
  | satisfied
  | possiblySatisfied
  | possiblyViolated
  | violated
deriving DecidableEq

/-- The raw conformance score of one case:
`len(non-violated constraints) / len(all evaluated constraints)`
(`model_check_res_filter` over `model_check_res`, line 1084). -/
def rawConformance (c : List (String × TState)) : ℚ :=
  ((c.filter (fun kv => kv.2 ≠ TState.violated)).length : ℚ) / (c.length : ℚ)

/-- Modelled from the spec: `find_activity_position_by_name` is imported from
`utilities.dataframe_operations`, which is not part of this repository's
sources.  Per the spec it locates the index of the designated reference
activity name within the case's decoded sequence, `-1` when the activity is
absent. -/
def findActivityPosition (trace : List String) (name : String) : ℤ :=
  if name ∈ trace then (trace.indexOf name : ℤ) else -1

/-- `compute_conformance_new`: per case, the raw conformance score minus the
penalty, the penalty applying exactly when the tracked activity's synthetic
position equals `activity_origin_position` or the activity is absent
(position `-1`); no clamping.  `cases` are the per-case constraint states
returned by the external checker and `traces` the decoded activity sequences
of the same cases, aligned by index. -/
def computeConformanceNew (cases : List (List (String × TState)))
    (traces : List (List String)) (originPos : ℤ) (name : String)
    (penalty : ℚ) : List ℚ :=
  (List.range cases.length).map
    (fun i =>
      let pos := findActivityPosition (traces.getD i []) name
      rawConformance (cases.getD i []) -
        (if originPos = pos ∨ pos = -1 then penalty else 0))

/-! ### Random population initialization (`do_random_init`, lines 126-151) -/

/-- Stochastic draws of the initializer, indexed by round, row and feature. -/
structure InitEnv where
  unit : ℕ → ℕ → ℕ → ℚ
  choice : ℕ → ℕ → ℕ → ℕ

/-- numpy rounding of a rational to an integer: round half to even. -/
def roundHalfEven (q : ℚ) : ℤ :=
  if q - (⌊q⌋ : ℚ) < 1/2 then ⌊q⌋
  else if 1/2 < q - (⌊q⌋ : ℚ) then ⌊q⌋ + 1
  else if Even ⌊q⌋ then ⌊q⌋ else ⌊q⌋ + 1

/-- `np.round(x, p)`. -/
def roundToPrecision (p : ℕ) (q : ℚ) : ℚ :=
  (roundHalfEven (q * 10 ^ p) : ℚ) / 10 ^ p

/-- One candidate row of the batched random initialization (lines 136-145):
varied continuous features draw uniformly from their range and are rounded to
the feature's precision, varied categorical features draw a level, fixed
features copy the query instance. -/
def randomRow (S : FeatureSchema) (u : ℕ → ℚ) (c : ℕ → ℕ) : List ℚ :=
  (List.range S.numFeatures).map
    (fun j =>
      if S.varies j then
        if S.isCont j then
          roundToPrecision (S.precisions j) (uniformAB (S.lo j) (S.hi j) (u j))
        else chooseFrom (S.levels j) (c j)
      else S.query j)

/-- `do_random_init`, fuel-indexed: each fuel step is one evaluation of the
`while len(valid_inits) < num_inits` condition.  When the condition fails the
code returns `np.array(valid_inits[:num_inits])`; otherwise it generates a
batch of `num_inits - len(valid_inits)` rows, keeps the ones passing
`is_cf_valid` on the model scores (`valid`), and loops.  `none` means the
loop is still running after `fuel` rounds: the source has no retry bound and
raises no error. -/
def doRandomInit (S : FeatureSchema) (valid : List ℚ → Bool) (env : InitEnv)
    (numInits : ℕ) : ℕ → ℕ → List (List ℚ) → Option (List (List ℚ))
  | 0, _, _ => none
  | fuel + 1, round, acc =>
    if numInits ≤ acc.length then some (acc.take numInits)
    else
      let m := numInits - acc.length
      let batch := (List.range m).map (fun i => randomRow S (env.unit round i) (env.choice round i))
      doRandomInit S valid env numInits fuel (round + 1) (acc ++ batch.filter valid)

/-- The two provable parts of the amended claim C9: whenever `do_random_init`
returns, it returns exactly `num_inits` candidates, all passing the validity
check; and with an unsatisfiable validity predicate it never returns (and
never raises), whatever the fuel. -/
def RandomInitSpec (S : FeatureSchema) (valid : List ℚ → Bool) (env : InitEnv)
    (numInits : ℕ) : Prop :=
  (∀ fuel round acc res, (∀ x ∈ acc, valid x = true) →
      doRandomInit S valid env numInits fuel round acc = some res →
      res.length = numInits ∧ ∀ x ∈ res, valid x = true) ∧
  ((∀ x, valid x = false) → 1 ≤ numInits →
      ∀ fuel round, doRandomInit S valid env numInits fuel round [] = none)

/-- Schema with one fixed feature, used to exercise `do_random_init`. -/
def initBugSchema : FeatureSchema :=
  ⟨1, fun _ => false, fun _ => false, fun _ => 0, fun _ => 1, fun _ => [], fun _ => 0, fun _ => 3⟩

/-- Deterministic draw streams for the initializer fixtures. -/
def initBugEnv : InitEnv := ⟨fun _ _ _ => 0, fun _ _ _ => 0⟩

/-! ### Stopping logic of the generational loop (`find_counterfactuals`, lines 745-767) -/

/-- `self.model.model_type`. -/
inductive MType
  | classifier
  | regressor
deriving DecidableEq

/-- Parameters of the loop relevant to its stopping logic. -/
structure GAParams where
  mtype : MType
  desiredClass : ℚ
  desiredLo : ℚ
  desiredHi : ℚ
  thresh : ℚ
  totalCFs : ℕ

/-- Loop state.  `prevBest`/`curBest` are `none` while still at their infinite
initial values (`-np.inf` / `np.inf`); `preds` is `none` while still at the
initial `[inf] * total_CFs`. -/
structure GAState where
  iters : ℕ
  prevBest : Option ℚ
  curBest : Option ℚ
  stopCnt : ℕ
  preds : Option (List ℚ)

/-- State before the first loop iteration (lines 746-750). -/
def initGAState : GAState := ⟨0, none, none, 0, none⟩

/-- `all(i == desired_class for i in cfs_preds)` respectively
`all(desired_range[0] <= i <= desired_range[1] for i in cfs_preds)`.  The
initial `[inf] * total_CFs` (`preds = none`) satisfies neither comparison at
any entry, so the `all` holds there only when `total_CFs = 0`. -/
def predsOK (P : GAParams) (preds : Option (List ℚ)) : Bool :=
  match preds with
  | none => decide (P.totalCFs = 0)
  | some l =>
    match P.mtype with
    | MType.classifier => l.all (fun v => decide (v = P.desiredClass))
    | MType.regressor => l.all (fun v => decide (P.desiredLo ≤ v) && decide (v ≤ P.desiredHi))

/-- `abs(previous_best_loss - current_best_loss) <= thresh`; an infinite
endpoint makes the difference infinite, hence above any threshold. -/
def threshOK (P : GAParams) (s : GAState) : Bool :=
  match s.prevBest, s.curBest with
  | some p, some c => decide (|p - c| ≤ P.thresh)
  | _, _ => false

/-- The stagnation condition of lines 758-761 (note the Python precedence:
the threshold test conjoined with the disjunction of the two model-type
branches). -/
def stagnantB (P : GAParams) (s : GAState) : Bool :=
  threshOK P s && predsOK P s.preds

/-- Results of the scoring phase of iteration `k`, as produced by the model,
the conformance checker and the fitness sort: the sorted population's best
loss and the elites' predictions. -/
structure GAEnv where
  bestLoss : ℕ → ℚ
  elitePreds : ℕ → List ℚ

/-- Why the loop stopped. -/
inductive StopReason
  | stagnation
  | maxIters
deriving DecidableEq

/-- The `while iterations < maxiterations` loop of `find_counterfactuals`
restricted to its stopping logic, for a run with `total_CFs > 0`; `fuel` is
`maxiterations - iterations`.  Each iteration first updates the stagnation
counter (increment when stagnant, else reset to 0), breaks when it reaches 5,
otherwise shifts `previous_best_loss := current_best_loss`, scores the new
population (`env`), records the elites' predictions, and increments the
iteration counter. -/
def gaLoop (P : GAParams) (env : GAEnv) : ℕ → GAState → GAState × StopReason
  | 0, s => (s, StopReason.maxIters)
  | n + 1, s =>
    let cnt := if stagnantB P s then s.stopCnt + 1 else 0
    if 5 ≤ cnt then (⟨s.iters, s.prevBest, s.curBest, cnt, s.preds⟩, StopReason.stagnation)
    else gaLoop P env n
      ⟨s.iters + 1, s.curBest, some (env.bestLoss s.iters), cnt, some (env.elitePreds s.iters)⟩

/-- The conjunction proved for claim C3 about a loop run with
`maxiterations = fuel` from the initial state: (1) the stagnation test holds
exactly when the best loss moved by at most `thresh` since the previous
iteration and every elite's current prediction satisfies the desired outcome
(equality with the desired class for classifiers, membership in the desired
range for regressors); (2) a stagnant iteration carries the incremented
counter into the next iteration, a non-stagnant one carries 0; (3) a
stagnation stop happens exactly at counter value 5; (4) otherwise the loop
runs out of iterations, ending at `iterations = maxiterations`. -/
def GAStagnationSpec (P : GAParams) (env : GAEnv) (maxiterations : ℕ) : Prop :=
  (∀ s : GAState, stagnantB P s = true ↔
    ((∃ p c, s.prevBest = some p ∧ s.curBest = some c ∧ |p - c| ≤ P.thresh) ∧
     (∃ l, s.preds = some l ∧ ∀ v ∈ l,
        (P.mtype = MType.classifier → v = P.desiredClass) ∧
        (P.mtype = MType.regressor → P.desiredLo ≤ v ∧ v ≤ P.desiredHi)))) ∧
  (∀ n s, stagnantB P s = true → s.stopCnt + 1 < 5 →
    gaLoop P env (n + 1) s = gaLoop P env n
      ⟨s.iters + 1, s.curBest, some (env.bestLoss s.iters), s.stopCnt + 1,
        some (env.elitePreds s.iters)⟩) ∧
  (∀ n s, stagnantB P s = false →
    gaLoop P env (n + 1) s = gaLoop P env n
      ⟨s.iters + 1, s.curBest, some (env.bestLoss s.iters), 0,
        some (env.elitePreds s.iters)⟩) ∧
  ((gaLoop P env maxiterations initGAState).2 = StopReason.stagnation →
    (gaLoop P env maxiterations initGAState).1.stopCnt = 5) ∧
  ((gaLoop P env maxiterations initGAState).2 = StopReason.maxIters →
    (gaLoop P env maxiterations initGAState).1.iters = maxiterations)

/-! ### Result selector (`find_counterfactuals`, lines 817-839) -/

/-- The post-loop selection scan: while `i < population_size and
i < len(population)`, keep each candidate passing `is_cf_valid` and stop as
soon as `total_CFs` candidates have been collected (the length test runs
after each candidate, matching the code's placement of the break). -/
def selectLoop (valid : List ℚ → Bool) (totalCFs : ℕ)
    (acc : List (List ℚ)) : List (List ℚ) → List (List ℚ)
  | [] => acc
  | x :: xs =>
    let acc' := if valid x then acc ++ [x] else acc
    if totalCFs ≤ acc'.length then acc' else selectLoop valid totalCFs acc' xs

/-- The population actually scanned: under the `'filtering'` optimization the
final population restricted to conformance score `> 0.99` (scores aligned by
position), then truncated by the `i < population_size` loop bound. -/
def scannedPop (filtering : Bool) (conf : List ℚ) (populationSize : ℕ)
    (population : List (List ℚ)) : List (List ℚ) :=
  (if filtering then
      ((population.zip conf).filter (fun pc => decide (99/100 < pc.2))).map Prod.fst
    else population).take populationSize

/-- The Result Selector: optional conformance filtering, then the selection
scan (lines 817-839). -/
def resultSelect (filtering : Bool) (conf : List ℚ) (valid : List ℚ → Bool)
    (populationSize totalCFs : ℕ) (population : List (List ℚ)) : List (List ℚ) :=
  selectLoop valid totalCFs [] (scannedPop filtering conf populationSize population)

/-! ### Sequence-aware crossover variant B (`mate_2`, lines 587-635) -/

/-- The categorical encoder for the activity ("prefix") columns: per feature
position, the decode map applied by `encoder.decode`, the encode map applied
by `encoder.encode`, and `encoder._label_dict[feat_name].keys()`. -/
structure LabelCoder where
  dec : ℕ → ℚ → String
  enc : ℕ → String → ℚ
  keys : ℕ → List String

/-- `np.random.choice` over a list of activity labels, as a function of a
drawn index. -/
def chooseStr (l : List String) (k : ℕ) : String := l.getD (k % l.length) ("")

/-- `mate_2` (lines 587-635): the child's activity-position columns are
seeded from the decoded query instance wherever the query's decoded value is
one of the declarative activation/target activities (`activities`); every
other activity-position column takes parent 1's decoded value if it is not in
the activation set, else parent 2's decoded value if that is not in the
activation set, else a uniformly chosen label among
`encoder._label_dict[feat].keys()` not in the activation set.  Non-sequence
columns follow the plain crossover probabilities with the single
`prob = random.random()` drawn before the loop (`p`).  The child is
re-encoded before being returned (`encoder.encode(child)`), rendered by
applying `enc` to the label kept in each activity-position column.
`seqFeat j` is the `'prefix' in feat_name` test on feature `j`'s name. -/
def mateTwo (S : FeatureSchema) (C : LabelCoder) (activities activations : List String)
    (seqFeat : ℕ → Bool) (p : ℚ) (env : RandFeature) (k1 k2 : List ℚ) : List ℚ :=
  (List.range S.numFeatures).map
    (fun j =>
      if seqFeat j then
        if C.dec j (S.query j) ∈ activities then C.enc j (C.dec j (S.query j))
        else if C.dec j (k1.getD j 0) ∉ activations then C.enc j (C.dec j (k1.getD j 0))
        else if C.dec j (k2.getD j 0) ∉ activations then C.enc j (C.dec j (k2.getD j 0))
        else C.enc j (chooseStr ((C.keys j).filter (fun x => x ∉ activations)) (env.choice j))
      else
        if p < 2/5 then k1.getD j 0
        else if p < 4/5 then k2.getD j 0
        else if S.varies j then
          if S.isCont j then uniformAB (S.lo j) (S.hi j) (env.unit j)
          else chooseFrom (S.levels j) (env.choice j)
        else S.query j)

/-- Two-feature schema for the `mate_2` fixtures: feature 0 is an
activity-position column, feature 1 a variable continuous column with range
`[0, 10]`. -/
def mateTwoSchema : FeatureSchema :=
  ⟨2, fun j => j == 1, fun _ => true, fun _ => 0, fun _ => 10, fun _ => [], fun _ => 0,
    fun j => if j = 0 then 1 else 5⟩

/-- Encoder fixture: encoded value `1` decodes to activity `A`, anything else
to `B`; `A` encodes to `1`, other labels to `2`. -/
def mateTwoCoder : LabelCoder :=
  ⟨fun _ q => if q = 1 then ("A") else ("B"),
   fun _ s => if s = ("A") then 1 else 2,
   fun _ => [("A"), ("B")]⟩

/-- The `'prefix' in feat_name` test of the `mate_2` fixture: feature 0 is
the activity-position column. -/
def mateTwoSeq : ℕ → Bool := fun j => j == 0

/-- Draw stream fixture for the `mate_2` instance. -/
def mateTwoEnv : RandFeature := ⟨fun _ => 0, fun _ => 0, fun _ => 0⟩

/-! ### Fitness evaluator (`compute_loss` and its components) -/

/-- Configuration of the loss computation: the six weights stored by
`update_hyperparameters` (lines 60-69), the feature index partitions,
`feature_weights_list[0]`, and the external collaborators: the data
interface's `normalize_data`, the model's per-candidate score vector, the
number of output nodes, the reference dataset `data_df`, the encoded query
`x1` and its normalization. -/
structure LossCfg where
  proximityWeight : ℚ
  sparsityWeight : ℚ
  diversityWeight : ℚ
  plausibilityWeight : ℚ
  categoricalPenalty : ℚ
  conformanceWeight : ℚ
  contIdx : List ℕ
  catIdx : List ℕ
  numFeatures : ℕ
  featureWeightsList : List ℚ
  normalize : List ℚ → List ℚ
  scores : List ℚ → List ℚ
  numOutputNodes : ℕ
  dataRows : List (List ℚ)
  x1 : List ℚ
  queryNormalized : List ℚ

/-- `compute_yloss` for one classifier candidate with `hinge_loss` (lines
499-507): `max(0, max over c ≠ desired_class of score_c - score_desired)`;
the running maximum starts at `-inf`, so with no other class the hinge is 0. -/
def ylossHingeOne (cfg : LossCfg) (desiredClass : ℕ) (cf : List ℚ) : ℚ :=
  let s := cfg.scores cf
  match ((List.range cfg.numOutputNodes).filter (fun c => c ≠ desiredClass)).map
      (fun c => s.getD c 0) with
  | [] => 0
  | v :: vs => max 0 (vs.foldl max v - s.getD desiredClass 0)

/-- `compute_yloss` over a population. -/
def computeYloss (cfg : LossCfg) (desiredClass : ℕ) (cfs : List (List ℚ)) : List ℚ :=
  cfs.map (ylossHingeOne cfg desiredClass)

/-- `compute_proximity_loss` for one candidate (lines 519-531): weighted L1
distance on the continuous indexes between the normalized candidate and the
normalized query, divided by the sum of the continuous feature weights. -/
def proximityOne (cfg : LossCfg) (cf : List ℚ) : ℚ :=
  let xh := cfg.normalize cf
  (cfg.contIdx.map
      (fun i => |xh.getD i 0 - cfg.queryNormalized.getD i 0| *
        cfg.featureWeightsList.getD i 0)).sum /
    (cfg.contIdx.map (fun i => cfg.featureWeightsList.getD i 0)).sum

/-- Truncation toward zero, as numpy's `astype('int')`. -/
def truncZ (q : ℚ) : ℤ := if q < 0 then ⌈q⌉ else ⌊q⌋

/-- `compute_sparsity_loss` for one candidate (lines 533-537): the count of
features whose integer-truncated value differs from the query's, divided by
the number of features. -/
def sparsityOne (cfg : LossCfg) (cf : List ℚ) : ℚ :=
  (((List.range cfg.numFeatures).filter
      (fun j => truncZ (cf.getD j 0) ≠ truncZ (cfg.x1.getD j 0))).length : ℚ) /
    (cfg.numFeatures : ℚ)

/-- `continuous_distance` with the `cityblock` metric (lines 454-467). -/
def contDist (cfg : LossCfg) (q c : List ℚ) : ℚ :=
  (cfg.contIdx.map (fun i => |q.getD i 0 - c.getD i 0|)).sum

/-- `categorical_distance` with the `hamming` metric (lines 480-482): the
fraction of categorical indexes at which the vectors differ. -/
def catDist (cfg : LossCfg) (q c : List ℚ) : ℚ :=
  ((cfg.catIdx.filter (fun i => q.getD i 0 ≠ c.getD i 0)).length : ℚ) /
    (cfg.catIdx.length : ℚ)

/-- `distance_mh` (lines 433-452): the continuous cityblock distance divided
by the query row's length, mixed with the categorical hamming distance,
weighted by the continuous/categorical feature-count ratios. -/
def distanceMH (cfg : LossCfg) (q c : List ℚ) : ℚ :=
  (cfg.contIdx.length : ℚ) / (cfg.numFeatures : ℚ) * (contDist cfg q c / (q.length : ℚ)) +
    (cfg.catIdx.length : ℚ) / (cfg.numFeatures : ℚ) * catDist cfg q c

/-- `np.argsort(dists)[0][0]`: an index of the minimal entry (the first one). -/
def argminIdx (ds : List ℚ) : ℕ := ds.indexOf (ds.foldl min (ds.headD 0))

/-- `compute_plausibility` (lines 417-430): the reference row of `data_df`
closest to the query under `distance_mh`, then the `distance_mh` from that
row to every candidate. -/
def computePlausibility (cfg : LossCfg) (cfs : List (List ℚ)) : List ℚ :=
  let closest := cfg.dataRows.getD (argminIdx (cfg.dataRows.map
    (fun row => distanceMH cfg cfg.x1 row))) []
  cfs.map (fun cf => distanceMH cfg closest cf)

/-- `compute_loss` (lines 565-582): per candidate the total
`yloss + proximity_weight * proximity + sparsity_weight * sparsity +
conformance_weight * (1 - conformance_score) + plausibility_weight *
plausibility`, paired with the candidate's population index
(`np.concatenate([index, loss], axis=1)`).  The proximity component is the
scalar `0.0` unless `proximity_weight > 0` and more than one continuous
feature exists; the sparsity component is `0.0` unless
`sparsity_weight > 0`.  The diversity and categorical-penalty weights do not
occur. -/
def computeLoss (cfg : LossCfg) (desiredClass : ℕ) (cfs : List (List ℚ))
    (conformanceScore : List ℚ) : List (ℕ × ℚ) :=
  let yl := computeYloss cfg desiredClass cfs
  let pl := if 0 < cfg.proximityWeight ∧ 1 < cfg.contIdx.length
            then cfs.map (proximityOne cfg) else cfs.map (fun _ => 0)
  let sl := if 0 < cfg.sparsityWeight then cfs.map (sparsityOne cfg)
            else cfs.map (fun _ => 0)
  let pb := computePlausibility cfg cfs
  (List.range cfs.length).map
    (fun i =>
      (i, yl.getD i 0 + cfg.proximityWeight * pl.getD i 0 +
        cfg.sparsityWeight * sl.getD i 0 +
        cfg.conformanceWeight * (1 - conformanceScore.getD i 0) +
        cfg.plausibilityWeight * pb.getD i 0))

/-- `population_fitness[population_fitness[:, 1].argsort()]` (line 773): the
fitness records sorted ascending by the loss column. -/
def rankFitness (l : List (ℕ × ℚ)) : List (ℕ × ℚ) :=
  l.mergeSort (fun a b => decide (a.2 ≤ b.2))

/-- Loss configuration fixture: one continuous feature, identity
normalization, a two-class model scoring every candidate `[0, 1]`, a
one-row reference dataset. -/
def lossCfgFix : LossCfg :=
  ⟨1/2, 1/2, 1/2, 1/2, 1/10, 3, [0], [], 1, [1], id, fun _ => [0, 1], 2, [[1]], [1], [1]⟩

/-- The conjunction proved for claim C7: the result has at most `total_CFs`
members, every member passes the validity predicate, the result is an
in-order subsequence of the scanned (possibly conformance-filtered)
population, and when fewer than `total_CFs` members are returned the scanned
population was exhausted (every valid scanned candidate was kept);
under-fulfilment returns normally rather than raising. -/
def ResultSelectSpec (filtering : Bool) (conf : List ℚ) (valid : List ℚ → Bool)
    (populationSize totalCFs : ℕ) (population : List (List ℚ)) : Prop :=
  (resultSelect filtering conf valid populationSize totalCFs population).length ≤ totalCFs ∧
  (∀ x ∈ resultSelect filtering conf valid populationSize totalCFs population,
    valid x = true) ∧
  (resultSelect filtering conf valid populationSize totalCFs population).Sublist
    (scannedPop filtering conf populationSize population) ∧
  ((resultSelect filtering conf valid populationSize totalCFs population).length < totalCFs →
    resultSelect filtering conf valid populationSize totalCFs population =
      (scannedPop filtering conf populationSize population).filter valid)

end DiceGC

open DiceGC

/-- Claim C10: `get_constraint_activities` returns a target set disjoint from
the activation set (an activity appearing in both is kept only as an
activation, i.e. the returned targets are the accumulated targets with the
activations removed), and the combined activity set equals exactly the union
of the activation set and the filtered target set. -/
theorem constraint_activities_disjoint_union (checkers : List DeclChecker) :
    Disjoint (getConstraintActivities checkers).2.2 (getConstraintActivities checkers).2.1 ∧
    (getConstraintActivities checkers).1 =
      (getConstraintActivities checkers).2.1 ∪ (getConstraintActivities checkers).2.2 ∧
    (getConstraintActivities checkers).2.2 =
      (rawSets checkers).2.filter (fun x => x ∉ (rawSets checkers).1) := by
  refine ⟨?_, rfl, rfl⟩
  rw [Finset.disjoint_left]
  intro a ha
  simp only [getConstraintActivities, Finset.mem_filter] at ha ⊢
  exact ha.2

/-- Claim C8: `_predict_fn_custom` returns the desired class for a row
whenever the desired class's score equals the row's maximum score (even when
a lower-indexed class attains the same maximum), and otherwise returns the
arg-max class (the first index attaining the maximum). -/
theorem predict_fn_custom_ties (out : List (List ℚ)) (desiredClass : ℕ)
    (i : ℕ) (row : List ℚ) (h : (expandScores out).get? i = some row) :
    (row.getD desiredClass 0 = rowMax row →
      (predictFnCustom out desiredClass).get? i = some desiredClass) ∧
    (row.getD desiredClass 0 ≠ rowMax row →
      (predictFnCustom out desiredClass).get? i = some (argmaxRow row)) := by
  have hm : (predictFnCustom out desiredClass).get? i
      = ((expandScores out).get? i).map
          (fun r => if r.getD desiredClass 0 = rowMax r then desiredClass else argmaxRow r) := by
    simp [predictFnCustom, List.get?_eq_getElem?, List.getElem?_map]
  rw [h] at hm
  constructor <;> intro hc <;> rw [hm]
  · exact congrArg some (if_pos hc)
  · exact congrArg some (if_neg hc)

/-- Concrete instance of `predict_fn_custom_ties`: scores `[0, 1/2, 1/2]`,
desired class `2`; class `1` attains the same maximum `1/2`, yet the desired
class `2` is returned. -/
theorem predict_fn_custom_ties_witness :
    (predictFnCustom [[0, 1/2, 1/2]] 2).get? 0 = some 2 :=
  (predict_fn_custom_ties [[0, 1/2, 1/2]] 2 0 [0, 1/2, 1/2] (by rfl)).1 (by
    show ((1:ℚ)/2) = rowMax [0, 1/2, 1/2]
    norm_num [rowMax])

/-- Claim C5 (code bug): in `mate`, the mutation branch of a variable
continuous feature passes the lower range endpoint as both arguments of
`np.random.uniform`, so the "fresh" value is constantly the lower endpoint:
whatever the unit draw `r`, the child's feature equals `0` (the range being
`[0, 10]`), while a uniform draw over the feature's valid range as the claim
states it reaches `10` at `r = 1`. -/
theorem mate_mutation_constant_lower_bound :
    (∀ r : ℚ, (mate mateBugSchema (mateBugEnv r) [7] [8]).getD 0 0 = 0) ∧
    uniformAB 0 10 1 = 10 := by
  constructor
  · intro r
    simp [mate, mateBugSchema, mateBugEnv, uniformAB]
    norm_num
  · norm_num [uniformAB]

/-- Helper: one step of `do_random_init` preserves validity of the accumulator
and, on return, yields exactly `num_inits` rows. -/
lemma doRandomInit_some_spec (S : FeatureSchema) (valid : List ℚ → Bool)
    (env : InitEnv) (numInits : ℕ) :
    ∀ fuel round acc res, (∀ x ∈ acc, valid x = true) →
      doRandomInit S valid env numInits fuel round acc = some res →
      res.length = numInits ∧ ∀ x ∈ res, valid x = true := by
  intro fuel
  induction fuel with
  | zero => intro round acc res _ h; cases h
  | succ n ih =>
    intro round acc res hacc h
    rw [doRandomInit] at h
    by_cases hc : numInits ≤ acc.length
    · rw [if_pos hc] at h
      have hres := Option.some.inj h
      subst hres
      refine ⟨?_, ?_⟩
      · rw [List.length_take]
        omega
      · intro x hx
        exact hacc x (List.mem_of_mem_take hx)
    · rw [if_neg hc] at h
      refine ih _ _ _ ?_ h
      intro x hx
      rcases List.mem_append.mp hx with h1 | h2
      · exact hacc x h1
      · exact (List.mem_filter.mp h2).2

/-- Helper: with an unsatisfiable validity predicate, `do_random_init` never
returns, whatever the fuel. -/
lemma doRandomInit_unsat_none (S : FeatureSchema) (valid : List ℚ → Bool)
    (env : InitEnv) (numInits : ℕ) (hun : ∀ x, valid x = false)
    (hn : 1 ≤ numInits) :
    ∀ fuel round, doRandomInit S valid env numInits fuel round [] = none := by
  intro fuel
  induction fuel with
  | zero => intro round; rfl
  | succ n ih =>
    intro round
    rw [doRandomInit]
    rw [if_neg (by simp; omega)]
    have hb : ∀ l : List (List ℚ), l.filter valid = [] := by
      intro l
      apply List.filter_eq_nil_iff.mpr
      intro a _
      rw [hun a]
      exact Bool.false_ne_true
    simpa [hb] using ih (round + 1)

/-- Claim C4 counterexample: with the valid configuration
`total_CFs = population_size = 1` the offspring count is `0`, `new_generation_2`
stays `None` and the `SystemError` is raised (`none`): no next population of
size `population_size` is formed, contrary to the claim's first part. -/
theorem breed_step_equal_sizes_raises :
    1 ≤ 1 ∧ breedStep 1 1 [[(0 : ℚ)]] (fun _ => [0]) = none ∧
      ¬∃ pop, breedStep 1 1 [[(0 : ℚ)]] (fun _ => [0]) = some pop ∧ pop.length = 1 := by
  refine ⟨le_refl 1, rfl, ?_⟩
  rintro ⟨pop, h, -⟩
  exact Option.noConfusion h

/-- Claim C4 (amended): when `total_CFs < population_size` and the
deduplicated, fitness-sorted population still holds at least `total_CFs`
members, the next population (elites concatenated with offspring) has size
exactly `population_size`; when the offspring count
`population_size - total_CFs` is `≤ 0` -- that is, `total_CFs ≥
population_size`, equality included -- the fatal `SystemError` is raised
instead. -/
theorem breed_step_population_invariant (populationSize totalCFs : ℕ)
    (sortedPop : List (List ℚ)) (child : ℕ → List ℚ) :
    (totalCFs < populationSize → totalCFs ≤ sortedPop.length →
      ∃ pop, breedStep populationSize totalCFs sortedPop child = some pop ∧
        pop.length = populationSize) ∧
    (populationSize ≤ totalCFs →
      breedStep populationSize totalCFs sortedPop child = none) := by
  constructor
  · intro hlt hle
    have hpos : (0 : ℤ) < (populationSize : ℤ) - (totalCFs : ℤ) := by omega
    refine ⟨sortedPop.take totalCFs ++
      (List.range ((populationSize : ℤ) - (totalCFs : ℤ)).toNat).map child, ?_, ?_⟩
    · simp only [breedStep, if_pos hpos]
    · rw [List.length_append, List.length_take, List.length_map, List.length_range]
      omega
  · intro hge
    simp only [breedStep, ite_eq_right_iff]
    intro hpos
    omega

/-- Concrete instance of `breed_step_population_invariant`: one elite and one
offspring give a next population of size `population_size = 2`. -/
theorem breed_step_population_invariant_witness :
    ∃ pop, breedStep 2 1 [[(0 : ℚ)]] (fun _ => [5]) = some pop ∧ pop.length = 2 :=
  (breed_step_population_invariant 2 1 [[(0 : ℚ)]] (fun _ => [5])).1 (by decide) (by decide)

/-- Claim C2: `compute_conformance_new` assigns each case
`(non-violated constraints) / (all evaluated constraints)` minus the fixed
penalty exactly when the tracked activity's position in the decoded trace
equals the supplied origin position or the activity is absent (position `-1`),
with no clamping; a case with `0` non-violated constraints scores exactly
`0 - penalty-if-applicable`, and a case with all constraints non-violated and
the tracked activity relocated scores exactly `1`. -/
theorem compute_conformance_new_spec (cases : List (List (String × TState)))
    (traces : List (List String)) (originPos : ℤ) (name : String) (penalty : ℚ)
    (i : ℕ) (hi : i < cases.length) :
    ((computeConformanceNew cases traces originPos name penalty).get? i =
      some (rawConformance (cases.getD i []) -
        (if originPos = findActivityPosition (traces.getD i []) name ∨
            findActivityPosition (traces.getD i []) name = -1 then penalty else 0))) ∧
    ((cases.getD i []).filter (fun kv => kv.2 ≠ TState.violated) = [] →
      (computeConformanceNew cases traces originPos name penalty).get? i =
        some (0 -
          (if originPos = findActivityPosition (traces.getD i []) name ∨
              findActivityPosition (traces.getD i []) name = -1 then penalty else 0))) ∧
    (cases.getD i [] ≠ [] →
      (∀ kv ∈ cases.getD i [], kv.2 ≠ TState.violated) →
      originPos ≠ findActivityPosition (traces.getD i []) name →
      findActivityPosition (traces.getD i []) name ≠ -1 →
      (computeConformanceNew cases traces originPos name penalty).get? i = some 1) := by
  have h1 : (computeConformanceNew cases traces originPos name penalty).get? i =
      some (rawConformance (cases.getD i []) -
        (if originPos = findActivityPosition (traces.getD i []) name ∨
            findActivityPosition (traces.getD i []) name = -1 then penalty else 0)) := by
    simp only [computeConformanceNew, List.get?_eq_getElem?, List.getElem?_map,
      List.getElem?_range, hi]
    rfl
  refine ⟨h1, ?_, ?_⟩
  · intro hflt
    rw [h1]
    have : rawConformance (cases.getD i []) = 0 := by
      rw [rawConformance, hflt]
      simp
    rw [this]
  · intro hne hall hpos hneg
    rw [h1]
    have hflt : (cases.getD i []).filter (fun kv => kv.2 ≠ TState.violated) =
        cases.getD i [] := by
      apply List.filter_eq_self.mpr
      intro a ha
      exact decide_eq_true (hall a ha)
    have hraw : rawConformance (cases.getD i []) = 1 := by
      rw [rawConformance, hflt]
      apply div_self
      exact Nat.cast_ne_zero.mpr (fun h0 => hne (List.length_eq_zero.mp h0))
    rw [hraw, if_neg, sub_zero]
    rintro (h | h)
    · exact hpos h
    · exact hneg h

/-- Concrete instance of `compute_conformance_new_spec`: one case with a
single satisfied constraint whose decoded trace places the tracked activity
at position `1 ≠ 0` (the origin position) scores exactly `1`. -/
theorem compute_conformance_new_spec_witness :
    (computeConformanceNew [[(("c1"), TState.satisfied)]] [[("X"), ("A")]]
      0 ("A") (1/2)).get? 0 = some 1 :=
  (compute_conformance_new_spec [[(("c1"), TState.satisfied)]] [[("X"), ("A")]]
      0 ("A") (1/2) 0 (by decide)).2.2 (by decide) (by decide) (by decide) (by decide)

/-- Claim C9 counterexample: with an unsatisfiable validity predicate,
`do_random_init` is still running after 100 rounds -- and after any number of
rounds: the source bounds no retries and raises no configuration error, it
loops forever. -/
theorem do_random_init_no_retry_bound :
    doRandomInit initBugSchema (fun _ => false) initBugEnv 1 100 0 [] = none ∧
    ∀ fuel round,
      doRandomInit initBugSchema (fun _ => false) initBugEnv 1 fuel round [] = none := by
  have h := doRandomInit_unsat_none initBugSchema (fun _ => false) initBugEnv 1
    (fun _ => rfl) (le_refl 1)
  exact ⟨h 100 0, h⟩

/-- Claim C9 (amended): whenever `do_random_init` returns, it returns exactly
the requested number of candidates, each satisfying the validity check; but
it has no retry bound and raises no configuration error -- with an
unsatisfiable validity predicate it loops forever. -/
theorem do_random_init_valid_count (S : FeatureSchema) (valid : List ℚ → Bool)
    (env : InitEnv) (numInits : ℕ) : RandomInitSpec S valid env numInits :=
  ⟨doRandomInit_some_spec S valid env numInits,
   fun hun hn => doRandomInit_unsat_none S valid env numInits hun hn⟩

/-- Concrete instance of `do_random_init_valid_count`. -/
theorem do_random_init_valid_count_witness :
    RandomInitSpec initBugSchema (fun _ => true) initBugEnv 1 :=
  do_random_init_valid_count initBugSchema (fun _ => true) initBugEnv 1

/-- Helper: the stagnation test, spelled out (for a run with `total_CFs ≥ 1`,
so that the initial `[inf] * total_CFs` predictions never pass). -/
lemma stagnantB_iff (P : GAParams) (hCF : 1 ≤ P.totalCFs) (s : GAState) :
    stagnantB P s = true ↔
      ((∃ p c, s.prevBest = some p ∧ s.curBest = some c ∧ |p - c| ≤ P.thresh) ∧
       (∃ l, s.preds = some l ∧ ∀ v ∈ l,
          (P.mtype = MType.classifier → v = P.desiredClass) ∧
          (P.mtype = MType.regressor → P.desiredLo ≤ v ∧ v ≤ P.desiredHi))) := by
  obtain ⟨i, pb, cb, sc, pr⟩ := s
  have hcf0 : ¬P.totalCFs = 0 := by omega
  rcases pb with - | p <;> rcases cb with - | c <;> rcases pr with - | l <;>
    rcases hm : P.mtype with - | - <;>
    simp [stagnantB, threshOK, predsOK, hm, hcf0, List.all_eq_true]

/-- Helper: a stagnation stop carries counter value exactly 5 when the
counter was below 5 at entry. -/
lemma gaLoop_stagnation_five (P : GAParams) (env : GAEnv) :
    ∀ n s, s.stopCnt ≤ 4 → (gaLoop P env n s).2 = StopReason.stagnation →
      (gaLoop P env n s).1.stopCnt = 5 := by
  intro n
  induction n with
  | zero => intro s h hr; cases hr
  | succ m ih =>
    intro s h hr
    by_cases hs : stagnantB P s = true
    · by_cases h5 : 5 ≤ s.stopCnt + 1
      · simp only [gaLoop, hs, if_true, if_pos h5] at hr ⊢
        show s.stopCnt + 1 = 5
        omega
      · simp only [gaLoop, hs, if_true, if_neg h5] at hr ⊢
        exact ih _ (show s.stopCnt + 1 ≤ 4 by omega) hr
    · rw [Bool.not_eq_true] at hs
      simp only [gaLoop, hs, Bool.false_eq_true, if_false] at hr ⊢
      rw [if_neg (by omega)] at hr ⊢
      exact ih _ (show (0 : ℕ) ≤ 4 by omega) hr

/-- Helper: a run that exhausts its fuel advances the iteration counter by
exactly the fuel. -/
lemma gaLoop_maxIters_iters (P : GAParams) (env : GAEnv) :
    ∀ n s, (gaLoop P env n s).2 = StopReason.maxIters →
      (gaLoop P env n s).1.iters = s.iters + n := by
  intro n
  induction n with
  | zero => intro s _; rfl
  | succ m ih =>
    intro s hr
    by_cases hs : stagnantB P s = true
    · by_cases h5 : 5 ≤ s.stopCnt + 1
      · simp only [gaLoop, hs, if_true, if_pos h5] at hr
        cases hr
      · simp only [gaLoop, hs, if_true, if_neg h5] at hr ⊢
        rw [ih _ hr]
        show s.iters + 1 + m = s.iters + (m + 1)
        omega
    · rw [Bool.not_eq_true] at hs
      simp only [gaLoop, hs, Bool.false_eq_true, if_false] at hr ⊢
      rw [if_neg (by omega)] at hr ⊢
      rw [ih _ hr]
      show s.iters + 1 + m = s.iters + (m + 1)
      omega

/-- Claim C3: in every iteration the stagnation counter increments exactly
when the best loss moved by at most `thresh` and every elite's current
prediction satisfies the desired outcome (the desired class for classifiers,
the desired range for regressors), resetting to 0 otherwise; the loop halts
exactly on the 5th consecutive stagnant iteration (counter value 5), or when
`maxiterations` is reached. -/
theorem ga_stagnation_halting (P : GAParams) (env : GAEnv) (maxiterations : ℕ)
    (hCF : 1 ≤ P.totalCFs) : GAStagnationSpec P env maxiterations := by
  refine ⟨stagnantB_iff P hCF, ?_, ?_, ?_, ?_⟩
  · intro n s hs hlt
    simp only [gaLoop, hs, if_true]
    rw [if_neg (by omega)]
  · intro n s hs
    simp only [gaLoop, hs, Bool.false_eq_true, if_false]
    rw [if_neg (by omega)]
  · exact gaLoop_stagnation_five P env maxiterations initGAState (Nat.zero_le 4)
  · intro h
    have := gaLoop_maxIters_iters P env maxiterations initGAState h
    simpa [initGAState] using this

/-- Concrete instance of `ga_stagnation_halting`: a classifier run with one
requested counterfactual, desired class `1`, threshold `1/100`, three
iterations of budget. -/
theorem ga_stagnation_halting_witness :
    GAStagnationSpec ⟨MType.classifier, 1, 0, 0, 1/100, 1⟩ ⟨fun _ => 0, fun _ => [1]⟩ 3 :=
  ga_stagnation_halting ⟨MType.classifier, 1, 0, 0, 1/100, 1⟩ ⟨fun _ => 0, fun _ => [1]⟩ 3
    (le_refl 1)

/-- Helper: the selection scan never exceeds `total_CFs` kept candidates once
the accumulator is below it. -/
lemma selectLoop_length_le (valid : List ℚ → Bool) (totalCFs : ℕ) :
    ∀ l acc, acc.length < totalCFs →
      (selectLoop valid totalCFs acc l).length ≤ totalCFs := by
  intro l
  induction l with
  | nil => intro acc h; exact Nat.le_of_lt h
  | cons x xs ih =>
    intro acc h
    simp only [selectLoop]
    by_cases hv : valid x = true <;>
      simp only [hv, Bool.false_eq_true, if_true, if_false]
    · by_cases h2 : totalCFs ≤ (acc ++ [x]).length
      · rw [if_pos h2]
        simp only [List.length_append, List.length_cons, List.length_nil]
        omega
      · rw [if_neg h2]
        refine ih _ ?_
        simp only [List.length_append, List.length_cons, List.length_nil] at h2 ⊢
        omega
    · by_cases h2 : totalCFs ≤ acc.length
      · omega
      · rw [if_neg h2]
        exact ih _ (by omega)

/-- Helper: every candidate kept by the selection scan passes the validity
predicate, provided the accumulator already does. -/
lemma selectLoop_all_valid (valid : List ℚ → Bool) (totalCFs : ℕ) :
    ∀ l acc, (∀ x ∈ acc, valid x = true) →
      ∀ x ∈ selectLoop valid totalCFs acc l, valid x = true := by
  intro l
  induction l with
  | nil => intro acc h; exact h
  | cons y ys ih =>
    intro acc h
    simp only [selectLoop]
    by_cases hv : valid y = true <;>
      simp only [hv, Bool.false_eq_true, if_true, if_false]
    · have h' : ∀ x ∈ acc ++ [y], valid x = true := by
        intro x hx
        rcases List.mem_append.mp hx with h1 | h1
        · exact h x h1
        · rw [List.mem_singleton.mp h1]
          exact hv
      by_cases h2 : totalCFs ≤ (acc ++ [y]).length
      · rw [if_pos h2]; exact h'
      · rw [if_neg h2]; exact ih _ h'
    · by_cases h2 : totalCFs ≤ acc.length
      · rw [if_pos h2]; exact h
      · rw [if_neg h2]; exact ih _ h

/-- Helper: the selection scan returns the accumulator extended by an
in-order subsequence of the scanned list. -/
lemma selectLoop_shape (valid : List ℚ → Bool) (totalCFs : ℕ) :
    ∀ l acc, ∃ s, selectLoop valid totalCFs acc l = acc ++ s ∧ s.Sublist l := by
  intro l
  induction l with
  | nil => intro acc; exact ⟨[], by simp [selectLoop]⟩
  | cons y ys ih =>
    intro acc
    simp only [selectLoop]
    by_cases hv : valid y = true <;>
      simp only [hv, Bool.false_eq_true, if_true, if_false]
    · by_cases h2 : totalCFs ≤ (acc ++ [y]).length
      · rw [if_pos h2]
        exact ⟨[y], rfl, by simp⟩
      · rw [if_neg h2]
        obtain ⟨s, hs, hsub⟩ := ih (acc ++ [y])
        exact ⟨y :: s, by simpa using hs, List.Sublist.cons₂ y hsub⟩
    · by_cases h2 : totalCFs ≤ acc.length
      · rw [if_pos h2]
        exact ⟨[], by simp, List.nil_sublist _⟩
      · rw [if_neg h2]
        obtain ⟨s, hs, hsub⟩ := ih acc
        exact ⟨s, hs, List.Sublist.cons y hsub⟩

/-- Helper: when the scan returns fewer than `total_CFs` candidates, it never
hit the early stop, so it kept every valid candidate of the scanned list. -/
lemma selectLoop_exhaust (valid : List ℚ → Bool) (totalCFs : ℕ) :
    ∀ l acc, (selectLoop valid totalCFs acc l).length < totalCFs →
      selectLoop valid totalCFs acc l = acc ++ l.filter valid := by
  intro l
  induction l with
  | nil => intro acc _; simp [selectLoop]
  | cons y ys ih =>
    intro acc hlen
    simp only [selectLoop] at hlen ⊢
    by_cases hv : valid y = true <;>
      simp only [hv, Bool.false_eq_true, if_true, if_false] at hlen ⊢
    · by_cases h2 : totalCFs ≤ (acc ++ [y]).length
      · rw [if_pos h2] at hlen
        simp only [List.length_append, List.length_cons, List.length_nil] at hlen h2
        omega
      · rw [if_neg h2] at hlen ⊢
        rw [ih _ hlen, List.filter_cons_of_pos hv]
        simp
    · by_cases h2 : totalCFs ≤ acc.length
      · rw [if_pos h2] at hlen
        omega
      · rw [if_neg h2] at hlen ⊢
        rw [ih _ hlen, List.filter_cons_of_neg (by simp [hv])]

/-- Claim C7: after loop exit the Result Selector (under the `'filtering'`
optimization mode first restricting the population to conformance score
`> 0.99`) scans the possibly-filtered population in order, keeps each
candidate passing the validity predicate, stops once `total_CFs` valid
candidates are collected or the population is exhausted, and always returns
at most `total_CFs` members; under-fulfilment is a normal return, not an
error.  The hypothesis records the program's `population_size = 15 * total_CFs`. -/
theorem result_selector_spec (filtering : Bool) (conf : List ℚ)
    (valid : List ℚ → Bool) (populationSize totalCFs : ℕ)
    (population : List (List ℚ)) (hps : populationSize = 15 * totalCFs) :
    ResultSelectSpec filtering conf valid populationSize totalCFs population := by
  refine ⟨?_, ?_, ?_, ?_⟩
  · rcases Nat.eq_zero_or_pos totalCFs with h0 | h0
    · subst h0
      have : populationSize = 0 := by omega
      subst this
      simp [resultSelect, scannedPop, selectLoop]
    · exact selectLoop_length_le valid totalCFs _ [] (by simpa using h0)
  · intro x hx
    exact selectLoop_all_valid valid totalCFs _ [] (by intro y hy; cases hy) x hx
  · obtain ⟨s, hs, hsub⟩ := selectLoop_shape valid totalCFs
      (scannedPop filtering conf populationSize population) []
    rw [resultSelect, hs]
    simpa using hsub
  · intro hlen
    have := selectLoop_exhaust valid totalCFs
      (scannedPop filtering conf populationSize population) [] hlen
    simpa [resultSelect] using this

/-- Concrete instance of `result_selector_spec`: one requested counterfactual
from a single-candidate population, no conformance filtering. -/
theorem result_selector_spec_witness :
    ResultSelectSpec false [] (fun _ => true) 15 1 [[5]] :=
  result_selector_spec false [] (fun _ => true) 15 1 [[5]] (by decide)

/-- Helper: reading a mapped range list at an in-range position. -/
lemma rangeMap_getD {α : Type} (n : ℕ) (f : ℕ → α) (j : ℕ) (d : α)
    (hj : j < n) : ((List.range n).map f).getD j d = f j := by
  rw [List.getD_eq_getElem?_getD, List.getElem?_map, List.getElem?_range hj]
  rfl

/-- Helper: reading a mapped list at an in-range position. -/
lemma map_getD_lt {α β : Type} (f : α → β) (l : List α) (i : ℕ) (d : α)
    (d' : β) (h : i < l.length) : (l.map f).getD i d' = f (l.getD i d) := by
  rw [List.getD_eq_getElem?_getD, List.getElem?_map, List.getD_eq_getElem?_getD,
    List.getElem?_eq_getElem h]
  rfl

/-- Claim C6: `mate_2` (sequence-aware variant B) seeds the child's
activity-position features from the query instance wherever the query's
decoded value is a declarative activation/target activity; each unseeded
activity-position feature takes parent 1's value if that value is not in the
activation set, else parent 2's value if that is not in the activation set,
else a random activity level not in the activation set; non-sequence features
follow the plain crossover probabilities (`< 0.40` parent 1, `< 0.80` parent
2, else mutate) on the per-call probability draw; the child is re-encoded
before being returned. -/
theorem mate_two_characterization (S : FeatureSchema) (C : LabelCoder)
    (activities activations : List String) (sq : ℕ → Bool) (p : ℚ)
    (env : RandFeature) (k1 k2 : List ℚ) (j : ℕ) (hj : j < S.numFeatures) :
    (sq j = true → C.dec j (S.query j) ∈ activities →
      (mateTwo S C activities activations sq p env k1 k2).getD j 0 =
        C.enc j (C.dec j (S.query j))) ∧
    (sq j = true → C.dec j (S.query j) ∉ activities →
      C.dec j (k1.getD j 0) ∉ activations →
      (mateTwo S C activities activations sq p env k1 k2).getD j 0 =
        C.enc j (C.dec j (k1.getD j 0))) ∧
    (sq j = true → C.dec j (S.query j) ∉ activities →
      C.dec j (k1.getD j 0) ∈ activations → C.dec j (k2.getD j 0) ∉ activations →
      (mateTwo S C activities activations sq p env k1 k2).getD j 0 =
        C.enc j (C.dec j (k2.getD j 0))) ∧
    (sq j = true → C.dec j (S.query j) ∉ activities →
      C.dec j (k1.getD j 0) ∈ activations → C.dec j (k2.getD j 0) ∈ activations →
      (C.keys j).filter (fun x => x ∉ activations) ≠ [] →
      ∃ a ∈ (C.keys j).filter (fun x => x ∉ activations),
        (mateTwo S C activities activations sq p env k1 k2).getD j 0 = C.enc j a) ∧
    (sq j = false →
      (mateTwo S C activities activations sq p env k1 k2).getD j 0 =
        (if p < 2/5 then k1.getD j 0
         else if p < 4/5 then k2.getD j 0
         else if S.varies j then
           (if S.isCont j then uniformAB (S.lo j) (S.hi j) (env.unit j)
            else chooseFrom (S.levels j) (env.choice j))
         else S.query j)) := by
  have key : (mateTwo S C activities activations sq p env k1 k2).getD j 0 =
      (if sq j then
        if C.dec j (S.query j) ∈ activities then C.enc j (C.dec j (S.query j))
        else if C.dec j (k1.getD j 0) ∉ activations then C.enc j (C.dec j (k1.getD j 0))
        else if C.dec j (k2.getD j 0) ∉ activations then C.enc j (C.dec j (k2.getD j 0))
        else C.enc j (chooseStr ((C.keys j).filter (fun x => x ∉ activations)) (env.choice j))
      else
        if p < 2/5 then k1.getD j 0
        else if p < 4/5 then k2.getD j 0
        else if S.varies j then
          if S.isCont j then uniformAB (S.lo j) (S.hi j) (env.unit j)
          else chooseFrom (S.levels j) (env.choice j)
        else S.query j) := by
    rw [mateTwo]
    exact rangeMap_getD S.numFeatures _ j 0 hj
  refine ⟨?_, ?_, ?_, ?_, ?_⟩
  · intro h1 h2
    rw [key, if_pos h1, if_pos h2]
  · intro h1 h2 h3
    rw [key, if_pos h1, if_neg h2, if_pos h3]
  · intro h1 h2 h3 h4
    rw [key, if_pos h1, if_neg h2, if_neg (not_not_intro h3), if_pos h4]
  · intro h1 h2 h3 h4 h5
    refine ⟨chooseStr ((C.keys j).filter (fun x => x ∉ activations)) (env.choice j), ?_, ?_⟩
    · have hlen : 0 < ((C.keys j).filter (fun x => x ∉ activations)).length :=
        List.length_pos.mpr h5
      have hmod : env.choice j % ((C.keys j).filter (fun x => x ∉ activations)).length <
          ((C.keys j).filter (fun x => x ∉ activations)).length :=
        Nat.mod_lt _ hlen
      rw [chooseStr, List.getD_eq_getElem?_getD, List.getElem?_eq_getElem hmod]
      exact List.getElem_mem hmod
    · rw [key, if_pos h1, if_neg h2, if_neg (not_not_intro h3), if_neg (not_not_intro h4)]
  · intro h1
    rw [key, if_neg (by rw [h1]; exact Bool.false_ne_true)]

/-- Concrete instance of `mate_two_characterization`: the activity-position
feature, whose query value decodes to the activation activity `A`, is seeded
from the query instance and re-encoded. -/
theorem mate_two_characterization_witness :
    (mateTwo mateTwoSchema mateTwoCoder [("A")] [("A")] mateTwoSeq (1/2)
      mateTwoEnv [2, 7] [2, 8]).getD 0 0 =
      mateTwoCoder.enc 0 (mateTwoCoder.dec 0 (mateTwoSchema.query 0)) :=
  (mate_two_characterization mateTwoSchema mateTwoCoder [("A")] [("A")] mateTwoSeq (1/2)
      mateTwoEnv [2, 7] [2, 8] 0 (by decide)).1 (by decide) (by decide)

/-- Claim C1: each candidate's scalar loss computed by `compute_loss` equals
`yloss + proximity_weight * proximity_loss + sparsity_weight * sparsity_loss
+ conformance_weight * (1 - conformance_score) + plausibility_weight *
plausibility_loss` (the proximity/sparsity components being the code's
conditionally-zeroed values), the result does not depend on the diversity
weight or the categorical penalty, and the per-generation fitness ranking is
an ascending reordering of the fitness records by this scalar. -/
theorem compute_loss_formula_ranking (cfg : LossCfg) (desiredClass : ℕ)
    (cfs : List (List ℚ)) (conf : List ℚ) (dw cp : ℚ) (i : ℕ)
    (hi : i < cfs.length) :
    ((computeLoss cfg desiredClass cfs conf).get? i = some (i,
        ylossHingeOne cfg desiredClass (cfs.getD i []) +
        cfg.proximityWeight *
          (if 0 < cfg.proximityWeight ∧ 1 < cfg.contIdx.length
           then proximityOne cfg (cfs.getD i []) else 0) +
        cfg.sparsityWeight *
          (if 0 < cfg.sparsityWeight then sparsityOne cfg (cfs.getD i []) else 0) +
        cfg.conformanceWeight * (1 - conf.getD i 0) +
        cfg.plausibilityWeight * (computePlausibility cfg cfs).getD i 0)) ∧
    (computeLoss { cfg with diversityWeight := dw, categoricalPenalty := cp }
        desiredClass cfs conf = computeLoss cfg desiredClass cfs conf) ∧
    List.Pairwise (fun a b : ℕ × ℚ => a.2 ≤ b.2)
      (rankFitness (computeLoss cfg desiredClass cfs conf)) ∧
    (rankFitness (computeLoss cfg desiredClass cfs conf)).Perm
      (computeLoss cfg desiredClass cfs conf) := by
  refine ⟨?_, ?_, ?_, List.mergeSort_perm _ _⟩
  · have hyl : (computeYloss cfg desiredClass cfs).getD i 0 =
        ylossHingeOne cfg desiredClass (cfs.getD i []) :=
      map_getD_lt _ _ i [] 0 hi
    have hpl : (if 0 < cfg.proximityWeight ∧ 1 < cfg.contIdx.length
        then cfs.map (proximityOne cfg) else cfs.map (fun _ => 0)).getD i 0 =
        (if 0 < cfg.proximityWeight ∧ 1 < cfg.contIdx.length
         then proximityOne cfg (cfs.getD i []) else 0) := by
      by_cases hg : 0 < cfg.proximityWeight ∧ 1 < cfg.contIdx.length
      · rw [if_pos hg, if_pos hg]
        exact map_getD_lt _ _ i [] 0 hi
      · rw [if_neg hg, if_neg hg]
        exact map_getD_lt _ _ i [] 0 hi
    have hsl : (if 0 < cfg.sparsityWeight then cfs.map (sparsityOne cfg)
        else cfs.map (fun _ => 0)).getD i 0 =
        (if 0 < cfg.sparsityWeight then sparsityOne cfg (cfs.getD i []) else 0) := by
      by_cases hg : 0 < cfg.sparsityWeight
      · rw [if_pos hg, if_pos hg]
        exact map_getD_lt _ _ i [] 0 hi
      · rw [if_neg hg, if_neg hg]
        exact map_getD_lt _ _ i [] 0 hi
    simp only [computeLoss]
    rw [List.get?_eq_getElem?, List.getElem?_map, List.getElem?_range hi]
    refine congrArg some ?_
    beta_reduce
    rw [hyl, hpl, hsl]
  · cases cfg
    rfl
  · have htr : ∀ a b c : ℕ × ℚ, decide (a.2 ≤ b.2) = true →
        decide (b.2 ≤ c.2) = true → decide (a.2 ≤ c.2) = true := by
      intro a b c h1 h2
      simp only [decide_eq_true_eq] at *
      exact le_trans h1 h2
    have hto : ∀ a b : ℕ × ℚ, (decide (a.2 ≤ b.2) || decide (b.2 ≤ a.2)) = true := by
      intro a b
      simpa using le_total a.2 b.2
    exact (List.sorted_mergeSort htr hto _).imp (fun h => by simpa using h)

/-- Concrete instance of `compute_loss_formula_ranking` on the fixture
configuration with one candidate. -/
theorem compute_loss_formula_ranking_witness :
    ((computeLoss lossCfgFix 1 [[1]] [1]).get? 0 = some (0,
        ylossHingeOne lossCfgFix 1 ([[(1 : ℚ)]].getD 0 []) +
        lossCfgFix.proximityWeight *
          (if 0 < lossCfgFix.proximityWeight ∧ 1 < lossCfgFix.contIdx.length
           then proximityOne lossCfgFix ([[(1 : ℚ)]].getD 0 []) else 0) +
        lossCfgFix.sparsityWeight *
          (if 0 < lossCfgFix.sparsityWeight
           then sparsityOne lossCfgFix ([[(1 : ℚ)]].getD 0 []) else 0) +
        lossCfgFix.conformanceWeight * (1 - [(1 : ℚ)].getD 0 0) +
        lossCfgFix.plausibilityWeight * (computePlausibility lossCfgFix [[1]]).getD 0 0)) ∧
    (computeLoss { lossCfgFix with diversityWeight := 0, categoricalPenalty := 0 }
        1 [[1]] [1] = computeLoss lossCfgFix 1 [[1]] [1]) ∧
    List.Pairwise (fun a b : ℕ × ℚ => a.2 ≤ b.2)
      (rankFitness (computeLoss lossCfgFix 1 [[1]] [1])) ∧
    (rankFitness (computeLoss lossCfgFix 1 [[1]] [1])).Perm
      (computeLoss lossCfgFix 1 [[1]] [1]) :=
  compute_loss_formula_ranking lossCfgFix 1 [[1]] [1] 0 0 0 (by decide)
